import Mathlib

/-
Verification of the DOL container parser (src/format/dol.rs).

The byte source is modelled as a list of naturals (one per byte); all
32-bit fields are naturals produced by big-endian 4-byte reads, hence
always < 2^32.  Fallible operations return Option / Except.  A Rust
panic (process abort) is modelled by the distinguished error value
ParseError.panicked, kept separate from the typed DeserializeError
values that the parser returns to its caller.
-/

set_option maxRecDepth 100000

/-- A byte source: each entry is one byte value. -/
abbrev Bytes := List Nat

/-- Decidable equality of Except values, for evaluating parses on concrete
inputs. -/
instance {ε α : Type} [DecidableEq ε] [DecidableEq α] : DecidableEq (Except ε α) := fun x y =>
  match x, y with
  | .ok a, .ok b => decidable_of_iff (a = b) ⟨fun h => by rw [h], fun h => by injection h⟩
  | .error a, .error b => decidable_of_iff (a = b) ⟨fun h => by rw [h], fun h => by injection h⟩
  | .ok _, .error _ => .isFalse (fun h => Except.noConfusion h)
  | .error _, .ok _ => .isFalse (fun h => Except.noConfusion h)

/-- Modelled from the spec: the reader helper (crate::helper, not under src/)
reads a 32-bit big-endian unsigned integer; it fails with an I/O error when
fewer than four bytes are available at the given position. -/
def read_bu32 (d : Bytes) (p : Nat) : Option Nat :=
  match d[p]?, d[p+1]?, d[p+2]?, d[p+3]? with
  | some b0, some b1, some b2, some b3 => some (((b0 * 256 + b1) * 256 + b2) * 256 + b3)
  | _, _, _, _ => none

/-- Read a fixed number of consecutive big-endian 32-bit integers starting at
byte position p (the cursor advances by four per read). -/
def readU32s (d : Bytes) (p : Nat) : Nat → Option (List Nat)
  | 0 => some []
  | n + 1 =>
    match read_bu32 d p with
    | none => none
    | some x =>
      match readU32s d (p + 4) n with
      | none => none
      | some rest => some (x :: rest)

/-- The raw DOL header (struct Header in dol.rs): parallel arrays of section
offsets, addresses and sizes, plus bss address/size and the entry point. -/
structure Header where
  text_offset : List Nat
  data_offset : List Nat
  text_address : List Nat
  data_address : List Nat
  text_size : List Nat
  data_size : List Nat
  bss_address : Nat
  bss_size : Nat
  entry_point : Nat
deriving DecidableEq

/-- Kind of a section (enum SectionKind in dol.rs). -/
inductive SectionKind where
  | Text
  | Data
  | Bss
deriving DecidableEq

/-- A section of the parsed file (struct Section in dol.rs). -/
structure DolSection where
  kind : SectionKind
  name : String
  address : Nat
  size : Nat
  aligned_size : Nat
  data : Bytes
deriving DecidableEq

/-- One entry of the recovered rom-copy table (struct RomCopyInfo). -/
structure RomCopyInfo where
  rom_address : Nat
  ram_address : Nat
  size : Nat
deriving DecidableEq

/-- One entry of the recovered bss-init table (struct BssInitInfo). -/
structure BssInitInfo where
  ram_address : Nat
  size : Nat
deriving DecidableEq

/-- Outcomes of a parse that does not return a Dol.  ioError models the
DeserializeError produced by a failed read or seek, invalidData models
DeserializeError::InvalidData, and panicked models a Rust panic (process
abort), which is not a returned error value. -/
inductive ParseError where
  | ioError
  | invalidData
  | panicked
deriving DecidableEq

/-- The parse result (struct Dol in dol.rs). -/
structure Dol where
  header : Header
  rom_copy_info : Option (List RomCopyInfo)
  bss_init_info : Option (List BssInitInfo)
  sections : List DolSection
deriving DecidableEq

/-- Decode one 12-byte rom-copy record (RomCopyInfo::from_bytes): three
big-endian 32-bit reads from the start of the window. -/
def RomCopyInfo.from_bytes (w : Bytes) : Option RomCopyInfo :=
  match read_bu32 w 0, read_bu32 w 4, read_bu32 w 8 with
  | some rom, some ram, some sz => some ⟨rom, ram, sz⟩
  | _, _, _ => none

/-- Decode one 8-byte bss-init record (BssInitInfo::from_bytes): two
big-endian 32-bit reads from the start of the window. -/
def BssInitInfo.from_bytes (w : Bytes) : Option BssInitInfo :=
  match read_bu32 w 0, read_bu32 w 4 with
  | some ram, some sz => some ⟨ram, sz⟩
  | _, _ => none

/-- Modelled from the spec: the take_last_n helper (crate::helper, not under
src/) keeps at most the last n bytes of the slice. -/
def take_last_n (xs : Bytes) (n : Nat) : Bytes :=
  xs.drop (xs.length - n)

/-- All contiguous length-n subslices of a list, one starting at every byte
offset (slice::windows in Rust; empty when the list is shorter than n). -/
def windows (n : Nat) (xs : Bytes) : List Bytes :=
  (List.range (xs.length + 1 - n)).map (fun i => (xs.drop i).take n)

/-- Auxiliary for step_by: k is the number of elements still to skip before
the next element is emitted. -/
def step_by_aux (n : Nat) : Nat → List α → List α
  | _, [] => []
  | 0, x :: xs => x :: step_by_aux n (n - 1) xs
  | k + 1, _ :: xs => step_by_aux n k xs

/-- Iterator::step_by n: the elements at positions 0, n, 2n, ... of the list. -/
def step_by (n : Nat) (xs : List α) : List α :=
  step_by_aux n 0 xs

/-- rom_copy_info_search from dol.rs: decode a candidate record at every byte
offset of the last 0x200 bytes, skip until the first whose rom and ram
addresses both equal the init section load address, then stride by 12 bytes
taking records while the rom address is nonzero. -/
def rom_copy_info_search (data : Bytes) (address : Nat) : Option (List RomCopyInfo) :=
  some ((step_by 12
      (((windows 12 (take_last_n data 0x200)).filterMap RomCopyInfo.from_bytes).dropWhile
        (fun x => x.rom_address != address || x.ram_address != address))).takeWhile
    (fun x => x.rom_address != 0))

/-- bss_init_info_search from dol.rs: the same two-phase search with 8-byte
records, anchor condition ram address equals the given address, and sentinel
ram address zero. -/
def bss_init_info_search (data : Bytes) (address : Nat) : Option (List BssInitInfo) :=
  some ((step_by 8
      (((windows 8 (take_last_n data 0x200)).filterMap BssInitInfo.from_bytes).dropWhile
        (fun x => x.ram_address != address))).takeWhile
    (fun x => x.ram_address != 0))

/-- section_name from dol.rs.  The out-of-range arms of the Rust match are
panic! calls; they are modelled by none. -/
def section_name : SectionKind → Nat → Option String
  | .Text, 0 => some ".init"
  | .Text, 1 => some ".text"
  | .Text, 2 => some ".text.2"
  | .Text, 3 => some ".text.3"
  | .Text, 4 => some ".text.4"
  | .Text, 5 => some ".text.5"
  | .Text, 6 => some ".text.6"
  | .Text, _ => none
  | .Data, 0 => some "extab_"
  | .Data, 1 => some "extabindex_"
  | .Data, 2 => some ".ctors"
  | .Data, 3 => some ".dtors"
  | .Data, 4 => some ".rodata"
  | .Data, 5 => some ".data"
  | .Data, 6 => some ".sdata"
  | .Data, 7 => some ".sdata2"
  | .Data, 8 => some ".data8"
  | .Data, 9 => some ".data9"
  | .Data, 10 => some ".data10"
  | .Data, _ => none
  | .Bss, 0 => some ".bss"
  | .Bss, 1 => some ".sbss"
  | .Bss, 2 => some ".sbss2"
  | .Bss, _ => none

/-- Modelled from the spec: seek to the absolute offset and read exactly size
bytes (ReadExtension and Seek, crate::helper, not under src/).  Reading zero
bytes always succeeds; otherwise the declared range must lie inside the
source. -/
def readBytes (src : Bytes) (offset size : Nat) : Option Bytes :=
  if size = 0 then some []
  else if offset + size ≤ src.length then some ((src.drop offset).take size)
  else none

/-- Section::new from dol.rs: look up the conventional name, seek to the
declared offset, read the declared number of bytes.  A failing read is an
I/O error; an out-of-range name index is a panic. -/
def DolSection.new (src : Bytes) (kind : SectionKind) (index offset address size aligned_size : Nat) :
    Except ParseError DolSection :=
  match section_name kind index with
  | none => .error .panicked
  | some nm =>
    match readBytes src offset size with
    | none => .error .ioError
    | some d => .ok ⟨kind, nm, address, size, aligned_size, d⟩

/-- One declared section triple of the header, together with its kind and
positional index within its group. -/
structure Triple where
  kind : SectionKind
  index : Nat
  offset : Nat
  address : Nat
  size : Nat
deriving DecidableEq

/-- Zip the offset, address and size arrays of one group into triples,
numbering them from the given index (izip! plus enumerate in dol.rs). -/
def triplesOf (kind : SectionKind) : Nat → List Nat → List Nat → List Nat → List Triple
  | i, o :: os, ad :: ads, s :: ss => ⟨kind, i, o, ad, s⟩ :: triplesOf kind (i + 1) os ads ss
  | _, _, _, _ => []

/-- The 18 declared section triples, text sections first then data sections,
in header order. -/
def declaredTriples (h : Header) : List Triple :=
  triplesOf .Text 0 h.text_offset h.text_address h.text_size
    ++ triplesOf .Data 0 h.data_offset h.data_address h.data_size

/-- Build the raw sections for a list of declared triples: each triple is read
with Section::new, sections whose declared size is zero are dropped, and the
first error aborts the whole build (the filter-then-collect chain in
from_bytes). -/
def buildSectionList (src : Bytes) : List Triple → Except ParseError (List DolSection)
  | [] => .ok []
  | t :: ts =>
    match DolSection.new src t.kind t.index t.offset t.address t.size t.size with
    | .error e => .error e
    | .ok s =>
      match buildSectionList src ts with
      | .error e => .error e
      | .ok rest => .ok (if s.size ≠ 0 then s :: rest else rest)

/-- The first rom-copy entry whose rom address equals the given address, if a
rom-copy table was recovered at all. -/
def findCopy (rci : Option (List RomCopyInfo)) (addr : Nat) : Option RomCopyInfo :=
  match rci with
  | none => none
  | some v => v.find? (fun x => x.rom_address == addr)

/-- The size-correction pass of from_bytes: replace the size field by the
matching rom-copy entry byte count when one exists, leaving every other
field unchanged. -/
def sizeCorrect (rci : Option (List RomCopyInfo)) (s : DolSection) : DolSection :=
  { s with size := match findCopy rci s.address with
                   | none => s.size
                   | some x => x.size }

/-- Modelled from the spec: align_next (crate::helper, not under src/) rounds
up to the next multiple of the alignment. -/
def align_next (x n : Nat) : Nat :=
  (x + n - 1) / n * n

/-- Build one Bss section per recovered bss-init entry, numbering them from
the given index; index 3 and beyond hits the panic arm of section_name. -/
def buildBssList : List BssInitInfo → Nat → Except ParseError (List DolSection)
  | [], _ => .ok []
  | e :: es, idx =>
    match section_name .Bss idx with
    | none => .error .panicked
    | some nm =>
      match buildBssList es (idx + 1) with
      | .error err => .error err
      | .ok rest => .ok (⟨.Bss, nm, e.ram_address, e.size, align_next e.size 32, []⟩ :: rest)

/-- The zero-fill part of the assembler: one section per recovered entry when
a table is present, otherwise a single synthesized .bss section taken
verbatim from the header fields. -/
def bssSections (bii : Option (List BssInitInfo)) (h : Header) : Except ParseError (List DolSection) :=
  match bii with
  | some l => buildBssList l 0
  | none => .ok [⟨.Bss, ".bss", h.bss_address, h.bss_size, h.bss_size, []⟩]

/-- Read the fixed 228-byte header: the six arrays in order, then bss address,
bss size and entry point (offsets 0x00, 0x1C, 0x48, 0x64, 0x90, 0xAC, 0xD8,
0xDC, 0xE0). -/
def parse_header (src : Bytes) : Option Header :=
  match readU32s src 0 7 with
  | none => none
  | some toff =>
  match readU32s src 28 11 with
  | none => none
  | some doff =>
  match readU32s src 72 7 with
  | none => none
  | some taddr =>
  match readU32s src 100 11 with
  | none => none
  | some daddr =>
  match readU32s src 144 7 with
  | none => none
  | some tsize =>
  match readU32s src 172 11 with
  | none => none
  | some dsize =>
  match read_bu32 src 216 with
  | none => none
  | some ba =>
  match read_bu32 src 220 with
  | none => none
  | some bs =>
  match read_bu32 src 224 with
  | none => none
  | some ep => some ⟨toff, doff, taddr, daddr, tsize, dsize, ba, bs, ep⟩

/-- The rom-copy table obtained by searching the init section (found by
name), if the init section is present. -/
def recoveredRomCopy (secs : List DolSection) : Option (List RomCopyInfo) :=
  match secs.find? (fun s => s.name == ".init") with
  | none => none
  | some i => rom_copy_info_search i.data i.address

/-- The bss-init table obtained by searching the init section (found by
name), if the init section is present. -/
def recoveredBssInit (secs : List DolSection) (bss_address : Nat) : Option (List BssInitInfo) :=
  match secs.find? (fun s => s.name == ".init") with
  | none => none
  | some i => bss_init_info_search i.data bss_address

/-- The assembler stage of from_bytes: run both searches on the init section,
apply the size correction to the built sections, and append the zero-fill
sections. -/
def assembleDol (h : Header) (secs : List DolSection) : Except ParseError Dol :=
  match bssSections (recoveredBssInit secs h.bss_address) h with
  | .error e => .error e
  | .ok bsecs =>
    .ok ⟨h, recoveredRomCopy secs, recoveredBssInit secs h.bss_address,
         secs.map (sizeCorrect (recoveredRomCopy secs)) ++ bsecs⟩

/-- from_bytes from dol.rs: parse the header, build the declared sections,
search the init section (found by name) for the two tables, apply the size
correction, and append the zero-fill sections. -/
def from_bytes (src : Bytes) : Except ParseError Dol :=
  match parse_header src with
  | none => .error .ioError
  | some h =>
    match buildSectionList src (declaredTriples h) with
    | .error e => .error e
    | .ok secs => assembleDol h secs

/-- Dol::entry_point. -/
def Dol.entry_point (d : Dol) : Nat :=
  d.header.entry_point

/-- Dol::section_by_name: the first section with the given name. -/
def Dol.section_by_name (d : Dol) (name : String) : Option DolSection :=
  d.sections.find? (fun x => x.name == name)

/-- Dol::section_by_address: the first section whose half-open address range
contains the given address.  The upper bound is the u32 sum address + size of
the source, so it is reduced modulo 2^32, matching the wrapping sum of a
release build (a debug build aborts on exactly the overflowing inputs). -/
def Dol.section_by_address (d : Dol) (address : Nat) : Option DolSection :=
  d.sections.find? (fun x => address ≥ x.address && address < (x.address + x.size) % 2 ^ 32)

/-- Big-endian encoding of a 32-bit value, used to build synthetic inputs. -/
def u32be (x : Nat) : Bytes :=
  [x / 2 ^ 24 % 256, x / 2 ^ 16 % 256, x / 2 ^ 8 % 256, x % 256]

/-- Build a 228-byte synthetic header from the 57 field values. -/
def mkHeader (vals : List Nat) : Bytes :=
  (vals.map u32be).flatten

/-- A run of zero bytes. -/
def zeros (n : Nat) : List Nat :=
  List.replicate n 0

/-- Synthetic container: a 32-byte .text section at 0x80000000 (text index 1),
a 16-byte .data section at 0x80001000 (data index 5), bss address 0x80002000,
bss size 64, entry point 0x80000000, and no init section. -/
def c5input : Bytes :=
  mkHeader ([0, 228, 0, 0, 0, 0, 0] ++
            [0, 0, 0, 0, 0, 260, 0, 0, 0, 0, 0] ++
            [0, 0x80000000, 0, 0, 0, 0, 0] ++
            [0, 0, 0, 0, 0, 0x80001000, 0, 0, 0, 0, 0] ++
            [0, 32, 0, 0, 0, 0, 0] ++
            [0, 0, 0, 0, 0, 16, 0, 0, 0, 0, 0] ++
            [0x80002000, 64, 0x80000000])
    ++ List.replicate 32 0xAA ++ List.replicate 16 0xBB

/-- Synthetic container with only a 32-byte init section, whose data is all
zero, so that neither table search finds an anchor. -/
def c1input : Bytes :=
  mkHeader ([228, 0, 0, 0, 0, 0, 0] ++ zeros 11 ++
            [0x80000000, 0, 0, 0, 0, 0, 0] ++ zeros 11 ++
            [32, 0, 0, 0, 0, 0, 0] ++ zeros 11 ++
            [0x80002000, 64, 0x80000000])
    ++ List.replicate 32 0

/-- Init-section payload holding a bss-init table with four entries (ram
addresses 0x80002000, 0x80002100, 0x80002200, 0x80002300), anchored at the
header bss address 0x80002000, with no rom-copy anchor anywhere. -/
def c2init : Bytes :=
  ([0x80002000, 32, 0x80002100, 32, 0x80002200, 32, 0x80002300, 32].map u32be).flatten

/-- Synthetic container whose init section carries a four-entry bss-init
table, which overruns the three-entry Bss name table. -/
def c2input : Bytes :=
  mkHeader ([228, 0, 0, 0, 0, 0, 0] ++ zeros 11 ++
            [0x80000000, 0, 0, 0, 0, 0, 0] ++ zeros 11 ++
            [32, 0, 0, 0, 0, 0, 0] ++ zeros 11 ++
            [0x80002000, 64, 0x80000000])
    ++ c2init

/-- Synthetic container whose header declares a 0x1000-byte text section while
the byte source ends right after the 228-byte header. -/
def c6input : Bytes :=
  mkHeader ([228, 0, 0, 0, 0, 0, 0] ++ zeros 11 ++
            [0x80000000, 0, 0, 0, 0, 0, 0] ++ zeros 11 ++
            [0x1000, 0, 0, 0, 0, 0, 0] ++ zeros 11 ++
            [0x80002000, 64, 0x80000000])

/-- A 228-byte all-zero container: every declared size is zero and the header
bss size is zero. -/
def allZeroInput : Bytes :=
  List.replicate 228 0

example : read_bu32 (u32be 0x80001000) 0 = some 0x80001000 := by decide

example : step_by 3 [0, 1, 2, 3, 4, 5, 6, 7] = [0, 3, 6] := by decide

example : windows 2 [1, 2, 3] = [[1, 2], [2, 3]] := by decide

/-- C1: evaluation at the failing input.  On a parse whose init section is
present but contains no anchor, both searches return an empty recovered table
(Option value some followed by the empty list, not the absent value the claim
requires), the assembler takes the recovered-table branch, and the final
section list contains no Bss section at all instead of the single synthesized
one. -/
theorem c1_no_anchor_eval :
    (from_bytes c1input).toOption.map
      (fun d => (d.rom_copy_info, d.bss_init_info,
                 (d.sections.filter (fun s => s.kind == SectionKind.Bss)).length,
                 d.sections.map (fun s => s.name))) =
      some (some [], some [], 0, [".init"]) := by decide

/-- C2: evaluation at the failing input.  A parse whose recovered bss-init
table has four entries reaches the out-of-range arm of section_name for Bss
index 3, which in the source is a panic (process abort), not a typed error
returned to the caller. -/
theorem c2_four_entry_table_panics :
    from_bytes c2input = .error .panicked := by decide

/-- C5: the synthetic container with a 32-byte .text section at 0x80000000, a
16-byte .data section at 0x80001000, bss address 0x80002000 and size 64,
entry point 0x80000000 and no init section parses into exactly the three
sections .text, .data, .bss with those addresses and sizes, and the
entry-point accessor returns 0x80000000, the big-endian 32-bit value at
header offset 0xE0. -/
theorem c5_end_to_end :
    (from_bytes c5input).toOption.map
      (fun d => (d.sections.map (fun s => (s.kind, s.name, s.address, s.size)),
                 d.entry_point)) =
      some ([(SectionKind.Text, ".text", 0x80000000, 32),
             (SectionKind.Data, ".data", 0x80001000, 16),
             (SectionKind.Bss, ".bss", 0x80002000, 64)], 0x80000000)
    ∧ read_bu32 c5input 0xE0 = some 0x80000000 := by decide

/-- C7 counterexample: the all-zero container parses successfully, yet its
section list contains a Bss section whose size is zero and is exactly the
header-declared zero-fill size (the big-endian value at offset 0xDC), so a
section whose header-declared size is zero does appear in the result. -/
theorem c7_counterexample :
    (from_bytes allZeroInput).toOption.map
      (fun d => d.sections.map (fun s => (s.kind, s.name, s.address, s.size))) =
      some [(SectionKind.Bss, ".bss", 0, 0)]
    ∧ read_bu32 allZeroInput 0xDC = some 0 := by decide

/-- Two sections have disjoint half-open address ranges. -/
def rangesDisjoint (s1 s2 : DolSection) : Prop :=
  s1.address + s1.size ≤ s2.address ∨ s2.address + s2.size ≤ s1.address

instance : DecidableRel rangesDisjoint :=
  fun s1 s2 => inferInstanceAs (Decidable (_ ∨ _))

/-- Helper for C8: under pairwise disjointness and absence of u32 overflow in
the range bounds, find? over the section list returns any member whose range
contains the address. -/
theorem find_section_of_contains (l : List DolSection) (a : Nat)
    (hp : l.Pairwise rangesDisjoint)
    (hb : ∀ s ∈ l, s.address + s.size < 2 ^ 32) :
    ∀ s ∈ l, s.address ≤ a → a < s.address + s.size →
      l.find? (fun x => a ≥ x.address && a < (x.address + x.size) % 2 ^ 32) = some s := by
  induction l with
  | nil => intro s hs; cases hs
  | cons hd tl ih =>
    intro s hs h1 h2
    rcases List.pairwise_cons.mp hp with ⟨hdisj, htl⟩
    have hbhd : hd.address + hd.size < 2 ^ 32 := hb hd (List.mem_cons_self hd tl)
    rcases List.mem_cons.mp hs with rfl | hs2
    · rw [List.find?_cons_of_pos]
      simp only [ge_iff_le, Bool.and_eq_true, decide_eq_true_eq]
      rw [Nat.mod_eq_of_lt hbhd]
      exact ⟨h1, h2⟩
    · rw [List.find?_cons_of_neg]
      · exact ih htl (fun x hx => hb x (List.mem_cons_of_mem _ hx)) s hs2 h1 h2
      · have hd2 := hdisj s hs2
        simp only [rangesDisjoint] at hd2
        simp only [ge_iff_le, Bool.and_eq_true, decide_eq_true_eq, not_and]
        rw [Nat.mod_eq_of_lt hbhd]
        omega

/-- C8 (amended): for a result whose sections have pairwise non-overlapping
half-open address ranges and whose sections' address + size sums stay below
2^32 (no u32 overflow in the bound), section_by_address returns exactly the
member section whose range contains the query address, and returns none when
no section range contains it. -/
theorem c8_section_by_address_correct (d : Dol)
    (hp : d.sections.Pairwise rangesDisjoint)
    (hb : ∀ s ∈ d.sections, s.address + s.size < 2 ^ 32) (a : Nat) :
    (∀ s ∈ d.sections, s.address ≤ a → a < s.address + s.size →
      d.section_by_address a = some s) ∧
    ((∀ s ∈ d.sections, ¬(s.address ≤ a ∧ a < s.address + s.size)) →
      d.section_by_address a = none) := by
  constructor
  · intro s hs h1 h2
    exact find_section_of_contains d.sections a hp hb s hs h1 h2
  · intro hnone
    apply List.find?_eq_none.mpr
    intro x hx
    have hnx := hnone x hx
    have hle : (x.address + x.size) % 2 ^ 32 ≤ x.address + x.size :=
      Nat.mod_le _ _
    simp only [ge_iff_le, Bool.and_eq_true, decide_eq_true_eq, not_and]
    omega

/-- Container whose header declares no text or data sections and a zero-fill
region whose u32 end address wraps: bss address 0xFFFFFF00, bss size 0x200. -/
def c8input : Bytes :=
  mkHeader (zeros 54 ++ [0xFFFFFF00, 0x200, 0])

/-- The parse result of c8input: a single .bss section whose address + size
exceeds 2^32. -/
def c8dol : Dol :=
  ⟨⟨zeros 7, zeros 11, zeros 7, zeros 11, zeros 7, zeros 11, 0xFFFFFF00, 0x200, 0⟩,
   none, none, [⟨.Bss, ".bss", 0xFFFFFF00, 0x200, 0x200, []⟩]⟩

/-- C8 counterexample: a reachable parsed result (one .bss section at
0xFFFFFF00 of size 0x200, trivially pairwise non-overlapping) whose section
contains the query address 0xFFFFFF80, yet section_by_address returns none,
because the source computes the range bound as a u32 sum that wraps to 0x100
in a release build (and aborts in a debug build) - refuting the claim as
stated. -/
theorem c8_counterexample :
    from_bytes c8input = .ok c8dol ∧
    c8dol.sections.Pairwise rangesDisjoint ∧
    (∃ s ∈ c8dol.sections, s.address ≤ 0xFFFFFF80 ∧ 0xFFFFFF80 < s.address + s.size) ∧
    c8dol.section_by_address 0xFFFFFF80 = none := by
  refine ⟨by decide, by decide, ?_, by decide⟩
  exact ⟨⟨.Bss, ".bss", 0xFFFFFF00, 0x200, 0x200, []⟩, by decide, by decide, by decide⟩

/-- A concrete result with two adjacent, non-overlapping sections, for the C8
witness. -/
def d8 : Dol :=
  ⟨⟨[], [], [], [], [], [], 0, 0, 0⟩, none, none,
   [⟨.Text, ".text", 100, 10, 10, []⟩, ⟨.Data, ".data", 110, 5, 5, []⟩]⟩

/-- C8 witness: on the two adjacent synthetic sections, whose range bounds do
not overflow, the query address 112 is resolved to the second section, and
address 200 to no section. -/
theorem c8_witness :
    d8.sections.Pairwise rangesDisjoint ∧
    (∀ s ∈ d8.sections, s.address + s.size < 2 ^ 32) ∧
    d8.section_by_address 112 = some ⟨.Data, ".data", 110, 5, 5, []⟩ ∧
    d8.section_by_address 200 = none :=
  have hp : d8.sections.Pairwise rangesDisjoint := by decide
  have hb : ∀ s ∈ d8.sections, s.address + s.size < 2 ^ 32 := by decide
  ⟨hp, hb,
   (c8_section_by_address_correct d8 hp hb 112).1 ⟨.Data, ".data", 110, 5, 5, []⟩
     (by decide) (by decide) (by decide),
   (c8_section_by_address_correct d8 hp hb 200).2 (by decide)⟩

/-- A successful 32-bit read needs four bytes inside the source. -/
theorem read_bu32_bound {d : Bytes} {p x : Nat} (h : read_bu32 d p = some x) :
    p + 4 ≤ d.length := by
  by_contra hlt
  have h3 : d[p+3]? = none := List.getElem?_eq_none (by omega)
  unfold read_bu32 at h
  rw [h3] at h
  cases d[p]? <;> cases d[p+1]? <;> cases d[p+2]? <;> simp_all

/-- A successful block read returns exactly the requested number of values. -/
theorem readU32s_length {d : Bytes} : ∀ {n p : Nat} {l : List Nat},
    readU32s d p n = some l → l.length = n := by
  intro n
  induction n with
  | zero => intro p l h; unfold readU32s at h; injection h with h; rw [← h]; rfl
  | succ k ih =>
    intro p l h
    unfold readU32s at h
    cases h1 : read_bu32 d p <;> rw [h1] at h
    · cases h
    · cases h2 : readU32s d (p + 4) k <;> rw [h2] at h
      · cases h
      · injection h with h
        rw [← h]
        simp [ih h2]

/-- A successful block read needs all its bytes inside the source. -/
theorem readU32s_bound {d : Bytes} {n : Nat} (hn : 0 < n) : ∀ {p : Nat} {l : List Nat},
    readU32s d p n = some l → p + 4 * n ≤ d.length := by
  induction n with
  | zero => omega
  | succ k ih =>
    intro p l h
    unfold readU32s at h
    cases h1 : read_bu32 d p <;> rw [h1] at h
    · cases h
    · cases h2 : readU32s d (p + 4) k <;> rw [h2] at h
      · cases h
      · rcases Nat.eq_zero_or_pos k with rfl | hk
        · have := read_bu32_bound h1; omega
        · have := ih hk h2; omega

/-- A successfully parsed header fixes the array lengths and needs at least
228 input bytes. -/
theorem parse_header_fields {src : Bytes} {hd : Header} (h : parse_header src = some hd) :
    hd.text_offset.length = 7 ∧ hd.data_offset.length = 11 ∧
    hd.text_address.length = 7 ∧ hd.data_address.length = 11 ∧
    hd.text_size.length = 7 ∧ hd.data_size.length = 11 ∧ 228 ≤ src.length := by
  unfold parse_header at h
  split at h; · cases h
  rename_i toff h1
  split at h; · cases h
  rename_i doff h2
  split at h; · cases h
  rename_i taddr h3
  split at h; · cases h
  rename_i daddr h4
  split at h; · cases h
  rename_i tsize h5
  split at h; · cases h
  rename_i dsize h6
  split at h; · cases h
  rename_i ba h7
  split at h; · cases h
  rename_i bs h8
  split at h; · cases h
  rename_i ep h9
  have hb := read_bu32_bound h9
  injection h with h
  subst h
  exact ⟨readU32s_length h1, readU32s_length h2, readU32s_length h3,
         readU32s_length h4, readU32s_length h5, readU32s_length h6, by omega⟩

/-- A byte source shorter than the 228-byte header aborts the parse with an
I/O error. -/
theorem from_bytes_short_input {src : Bytes} (h : src.length < 228) :
    from_bytes src = .error .ioError := by
  cases hph : parse_header src with
  | none => unfold from_bytes; rw [hph]
  | some hd =>
    have := (parse_header_fields hph).2.2.2.2.2.2
    omega

/-- Characterization of a successful Section::new: the name lookup and the
read both succeeded and every field is the value they produced. -/
theorem DolSection.new_ok {src : Bytes} {kind : SectionKind}
    {index offset address size asize : Nat} {s : DolSection}
    (h : DolSection.new src kind index offset address size asize = .ok s) :
    ∃ nm d, section_name kind index = some nm ∧ readBytes src offset size = some d ∧
      s = ⟨kind, nm, address, size, asize, d⟩ := by
  unfold DolSection.new at h
  split at h; · cases h
  rename_i nm hn
  split at h; · cases h
  rename_i d hr
  injection h with h
  exact ⟨nm, d, hn, hr, h.symm⟩

/-- When the name lookup cannot panic, the only failure of Section::new is
the I/O error of a failed read. -/
theorem DolSection.new_error {src : Bytes} {kind : SectionKind}
    {index offset address size asize : Nat} {e : ParseError}
    (h : DolSection.new src kind index offset address size asize = .error e)
    (hn : (section_name kind index).isSome) : e = .ioError := by
  unfold DolSection.new at h
  split at h
  · rename_i hnone
    rw [hnone] at hn
    simp at hn
  · split at h
    · injection h with h
      exact h.symm
    · cases h

/-- A successful bounded read returns exactly the declared number of bytes,
and a nonzero declared size must fit in the source. -/
theorem readBytes_some {src : Bytes} {o n : Nat} {d : Bytes}
    (h : readBytes src o n = some d) :
    d.length = n ∧ (n ≠ 0 → o + n ≤ src.length) := by
  unfold readBytes at h
  split at h
  · rename_i h0
    injection h with h
    subst h
    simp [h0]
  · split at h
    · rename_i hle
      injection h with h
      subst h
      refine ⟨?_, fun _ => hle⟩
      rw [List.length_take, List.length_drop]
      omega
    · cases h

/-- Every section produced by the build stage comes from one declared triple
via Section::new and has nonzero declared size. -/
theorem buildSectionList_mem {src : Bytes} : ∀ {ts : List Triple} {secs : List DolSection},
    buildSectionList src ts = .ok secs → ∀ s ∈ secs, ∃ t ∈ ts,
      DolSection.new src t.kind t.index t.offset t.address t.size t.size = .ok s ∧
      s.size ≠ 0 := by
  intro ts
  induction ts with
  | nil =>
    intro secs h s hs
    unfold buildSectionList at h
    injection h with h
    subst h
    cases hs
  | cons t0 rest ih =>
    intro secs h s hs
    unfold buildSectionList at h
    split at h; · cases h
    rename_i s0 hnew
    split at h; · cases h
    rename_i rsecs hrest
    injection h with h
    subst h
    by_cases h0 : s0.size ≠ 0
    · rw [if_pos h0] at hs
      rcases List.mem_cons.mp hs with rfl | hs2
      · exact ⟨t0, List.mem_cons_self t0 rest, hnew, h0⟩
      · obtain ⟨t, ht, hn, hsz⟩ := ih hrest s hs2
        exact ⟨t, List.mem_cons_of_mem _ ht, hn, hsz⟩
    · rw [if_neg h0] at hs
      obtain ⟨t, ht, hn, hsz⟩ := ih hrest s hs
      exact ⟨t, List.mem_cons_of_mem _ ht, hn, hsz⟩

/-- Every triple produced by zipping one group carries that group's kind and
an index below the group's length. -/
theorem triplesOf_mem {kind : SectionKind} : ∀ {i : Nat} {os ads ss : List Nat} {t : Triple},
    t ∈ triplesOf kind i os ads ss →
    t.kind = kind ∧ i ≤ t.index ∧ t.index < i + os.length := by
  intro i os
  induction os generalizing i with
  | nil =>
    intro ads ss t ht
    cases ads <;> cases ss <;> simp [triplesOf] at ht
  | cons o os' ih =>
    intro ads ss t ht
    cases ads with
    | nil => simp [triplesOf] at ht
    | cons ad ads' =>
      cases ss with
      | nil => simp [triplesOf] at ht
      | cons s ss' =>
        rw [triplesOf] at ht
        rcases List.mem_cons.mp ht with rfl | ht2
        · refine ⟨rfl, Nat.le_refl _, ?_⟩
          simp
        · obtain ⟨hk, hle, hlt⟩ := ih ht2
          refine ⟨hk, by omega, ?_⟩
          simp only [List.length_cons]
          omega

/-- With the array lengths fixed by the header, every declared triple has an
in-range name index, so its name lookup cannot panic. -/
theorem declaredTriples_valid {hd : Header} (h7 : hd.text_offset.length = 7)
    (h11 : hd.data_offset.length = 11) :
    ∀ t ∈ declaredTriples hd, (section_name t.kind t.index).isSome := by
  have htext : ∀ i < 7, (section_name .Text i).isSome := by decide
  have hdata : ∀ i < 11, (section_name .Data i).isSome := by decide
  intro t ht
  rcases List.mem_append.mp ht with h | h
  · obtain ⟨hk, -, hlt⟩ := triplesOf_mem h
    rw [hk]
    exact htext _ (by omega)
  · obtain ⟨hk, -, hlt⟩ := triplesOf_mem h
    rw [hk]
    exact hdata _ (by omega)

/-- When no name lookup can panic, a failing build stage fails with the I/O
error of the first failing read. -/
theorem buildSectionList_error_kind {src : Bytes} : ∀ {ts : List Triple} {e : ParseError},
    (∀ t ∈ ts, (section_name t.kind t.index).isSome) →
    buildSectionList src ts = .error e → e = .ioError := by
  intro ts
  induction ts with
  | nil =>
    intro e _ h
    unfold buildSectionList at h
    cases h
  | cons t0 rest ih =>
    intro e hval h
    unfold buildSectionList at h
    split at h
    · rename_i hnew
      injection h with h
      subst h
      exact DolSection.new_error hnew (hval t0 (List.mem_cons_self t0 rest))
    · rename_i s0 hnew
      split at h
      · rename_i hrest
        injection h with h
        subst h
        exact ih (fun t ht => hval t (List.mem_cons_of_mem _ ht)) hrest
      · cases h

/-- A declared triple whose nonzero size overruns the source makes the build
stage fail. -/
theorem buildSectionList_bad {src : Bytes} : ∀ {ts : List Triple},
    (∃ t ∈ ts, t.size ≠ 0 ∧ src.length < t.offset + t.size) →
    ∃ e, buildSectionList src ts = .error e := by
  intro ts
  induction ts with
  | nil =>
    rintro ⟨t, ht, -⟩
    cases ht
  | cons t0 rest ih =>
    rintro ⟨t, ht, hsz, hbad⟩
    unfold buildSectionList
    cases hnew : DolSection.new src t0.kind t0.index t0.offset t0.address t0.size t0.size with
    | error e => exact ⟨e, rfl⟩
    | ok s0 =>
      rcases List.mem_cons.mp ht with rfl | ht2
      · obtain ⟨nm, d, hn, hr, hs⟩ := DolSection.new_ok hnew
        have := (readBytes_some hr).2 hsz
        omega
      · obtain ⟨e, he⟩ := ih ⟨t, ht2, hsz, hbad⟩
        rw [he]
        exact ⟨e, rfl⟩

/-- A failing build stage propagates its error out of from_bytes. -/
theorem from_bytes_build_error {src : Bytes} {hd : Header} {e : ParseError}
    (hph : parse_header src = some hd)
    (hb : buildSectionList src (declaredTriples hd) = .error e) :
    from_bytes src = .error e := by
  unfold from_bytes
  rw [hph]
  dsimp only
  rw [hb]

/-- Decomposition of a successful parse into its pipeline stages. -/
theorem from_bytes_ok {src : Bytes} {dol : Dol} (h : from_bytes src = .ok dol) :
    ∃ hd secs bsecs, parse_header src = some hd ∧
      buildSectionList src (declaredTriples hd) = .ok secs ∧
      bssSections (recoveredBssInit secs hd.bss_address) hd = .ok bsecs ∧
      dol = ⟨hd, recoveredRomCopy secs, recoveredBssInit secs hd.bss_address,
             secs.map (sizeCorrect (recoveredRomCopy secs)) ++ bsecs⟩ := by
  unfold from_bytes at h
  split at h; · cases h
  rename_i hd hph
  split at h; · cases h
  rename_i secs hbs
  unfold assembleDol at h
  split at h; · cases h
  rename_i bsecs hbss
  injection h with h
  exact ⟨hd, secs, bsecs, hph, hbs, hbss, h.symm⟩

/-- Every section built from a recovered bss-init table has kind Bss. -/
theorem buildBssList_kind : ∀ {l : List BssInitInfo} {idx : Nat} {bsecs : List DolSection},
    buildBssList l idx = .ok bsecs → ∀ s ∈ bsecs, s.kind = .Bss := by
  intro l
  induction l with
  | nil =>
    intro idx bsecs h s hs
    unfold buildBssList at h
    injection h with h
    subst h
    cases hs
  | cons e0 rest ih =>
    intro idx bsecs h s hs
    unfold buildBssList at h
    split at h; · cases h
    rename_i nm hn
    split at h; · cases h
    rename_i rest' hrest
    injection h with h
    subst h
    rcases List.mem_cons.mp hs with rfl | hs2
    · rfl
    · exact ih hrest s hs2

/-- Every section of the zero-fill stage has kind Bss. -/
theorem bssSections_kind {bii : Option (List BssInitInfo)} {hd : Header}
    {bsecs : List DolSection} (h : bssSections bii hd = .ok bsecs) :
    ∀ s ∈ bsecs, s.kind = .Bss := by
  cases bii with
  | none =>
    unfold bssSections at h
    injection h with h
    subst h
    intro s hs
    rcases List.mem_cons.mp hs with rfl | hs2
    · rfl
    · cases hs2
  | some l =>
    unfold bssSections at h
    exact buildBssList_kind h

/-- Master lemma: every non-Bss section of a successful parse descends from a
declared header triple; all fields except size are exactly the values
Section::new assigned from that triple, and the size is the declared size
unless the first matching rom-copy entry replaced it. -/
theorem from_bytes_section_fields {src : Bytes} {dol : Dol} {hd : Header}
    (h : from_bytes src = .ok dol) (hph : parse_header src = some hd) :
    ∀ s ∈ dol.sections, s.kind ≠ .Bss →
      ∃ t ∈ declaredTriples hd, t.kind = s.kind ∧
        section_name t.kind t.index = some s.name ∧
        t.address = s.address ∧ t.size ≠ 0 ∧
        s.aligned_size = t.size ∧ s.data.length = t.size ∧
        readBytes src t.offset t.size = some s.data ∧
        (match findCopy dol.rom_copy_info s.address with
         | some e => s.size = e.size
         | none => s.size = t.size) := by
  obtain ⟨hd2, secs, bsecs, hph2, hbs, hbss, hdol⟩ := from_bytes_ok h
  rw [hph2] at hph
  injection hph with hph
  subst hph
  have hsec : dol.sections = secs.map (sizeCorrect (recoveredRomCopy secs)) ++ bsecs := by
    rw [hdol]
  have hrci : dol.rom_copy_info = recoveredRomCopy secs := by
    rw [hdol]
  intro s hs hkind
  rw [hsec] at hs
  rw [hrci]
  rcases List.mem_append.mp hs with hs1 | hs2
  swap
  · exact absurd (bssSections_kind hbss s hs2) hkind
  obtain ⟨r, hr, hsr⟩ := List.mem_map.mp hs1
  obtain ⟨t, ht, hnew, hsz⟩ := buildSectionList_mem hbs r hr
  obtain ⟨nm, d, hn, hrd, hrs⟩ := DolSection.new_ok hnew
  subst hrs
  subst hsr
  have hszt : t.size ≠ 0 := hsz
  refine ⟨t, ht, rfl, hn, rfl, hszt, rfl, (readBytes_some hrd).1, hrd, ?_⟩
  show (match findCopy (recoveredRomCopy secs) t.address with
        | some e => (match findCopy (recoveredRomCopy secs) t.address with
                     | none => t.size
                     | some x => x.size) = e.size
        | none => (match findCopy (recoveredRomCopy secs) t.address with
                   | none => t.size
                   | some x => x.size) = t.size)
  cases findCopy (recoveredRomCopy secs) t.address with
  | none => rfl
  | some e => rfl

/-- C4: after assembly, every Text or Data section of the result descends
from a declared header triple at its own kind and address; when some
recovered copy-table entry's on-disk address equals the section's address,
the section's size is that (first matching) entry's byte count, and
otherwise it is the header-declared size of its triple. -/
theorem c4_size_correction (src : Bytes) (dol : Dol) (hd : Header)
    (hok : from_bytes src = .ok dol) (hph : parse_header src = some hd) :
    ∀ s ∈ dol.sections, s.kind = .Text ∨ s.kind = .Data →
      ∃ t ∈ declaredTriples hd, t.kind = s.kind ∧ t.address = s.address ∧
        (match findCopy dol.rom_copy_info s.address with
         | some e => s.size = e.size
         | none => s.size = t.size) := by
  intro s hs hk
  have hnb : s.kind ≠ .Bss := by
    rcases hk with h | h <;> rw [h] <;> intro hc <;> cases hc
  obtain ⟨t, ht, h1, -, h3, -, -, -, -, h8⟩ := from_bytes_section_fields hok hph s hs hnb
  exact ⟨t, ht, h1, h3, h8⟩

/-- C7 (amended): every Text or Data section of a successful parse descends
from a declared triple whose size is nonzero, so a Text or Data section with
header-declared size zero never appears; the synthesized fallback Bss section
is exempt (see the counterexample). -/
theorem c7_zero_size_text_data_omitted (src : Bytes) (dol : Dol) (hd : Header)
    (hok : from_bytes src = .ok dol) (hph : parse_header src = some hd) :
    ∀ s ∈ dol.sections, s.kind = .Text ∨ s.kind = .Data →
      ∃ t ∈ declaredTriples hd, t.kind = s.kind ∧ t.address = s.address ∧
        t.size ≠ 0 ∧ s.data.length = t.size := by
  intro s hs hk
  have hnb : s.kind ≠ .Bss := by
    rcases hk with h | h <;> rw [h] <;> intro hc <;> cases hc
  obtain ⟨t, ht, h1, -, h3, h4, -, h6, -, -⟩ := from_bytes_section_fields hok hph s hs hnb
  exact ⟨t, ht, h1, h3, h4, h6⟩

/-- C10: the size-correction pass touches only the size field: every Text or
Data section of the result keeps exactly the kind, name, address,
aligned_size and data bytes that Section::new assigned from its declared
triple, and in particular its aligned_size equals the header-declared size,
never a rounded-up value. -/
theorem c10_correction_touches_only_size (src : Bytes) (dol : Dol) (hd : Header)
    (hok : from_bytes src = .ok dol) (hph : parse_header src = some hd) :
    ∀ s ∈ dol.sections, s.kind = .Text ∨ s.kind = .Data →
      ∃ t ∈ declaredTriples hd,
        s.kind = t.kind ∧ section_name t.kind t.index = some s.name ∧
        s.address = t.address ∧ s.aligned_size = t.size ∧
        readBytes src t.offset t.size = some s.data := by
  intro s hs hk
  have hnb : s.kind ≠ .Bss := by
    rcases hk with h | h <;> rw [h] <;> intro hc <;> cases hc
  obtain ⟨t, ht, h1, h2, h3, -, h5, -, h7, -⟩ := from_bytes_section_fields hok hph s hs hnb
  exact ⟨t, ht, h1.symm, h2, h3.symm, h5, h7⟩

/-- C6: a byte source shorter than the 228-byte header makes the parse fail
with an I/O error, and so does any declared triple whose nonzero size
overruns the byte source; in both cases the typed error is returned instead
of any partial result. -/
theorem c6_io_failure_aborts (src : Bytes) :
    (src.length < 228 → from_bytes src = .error .ioError) ∧
    (∀ hd, parse_header src = some hd → ∀ t ∈ declaredTriples hd,
      t.size ≠ 0 → src.length < t.offset + t.size →
      from_bytes src = .error .ioError) := by
  constructor
  · exact from_bytes_short_input
  · intro hd hph t ht hsz hbad
    obtain ⟨e, he⟩ := buildSectionList_bad ⟨t, ht, hsz, hbad⟩
    obtain ⟨h7, h11, -, -, -, -, -⟩ := parse_header_fields hph
    have hio := buildSectionList_error_kind (declaredTriples_valid h7 h11) he
    subst hio
    exact from_bytes_build_error hph he

/-- The header of the C5 synthetic container, as parsed. -/
def c5hdr : Header :=
  ⟨[0, 228, 0, 0, 0, 0, 0], [0, 0, 0, 0, 0, 260, 0, 0, 0, 0, 0],
   [0, 0x80000000, 0, 0, 0, 0, 0], [0, 0, 0, 0, 0, 0x80001000, 0, 0, 0, 0, 0],
   [0, 32, 0, 0, 0, 0, 0], [0, 0, 0, 0, 0, 16, 0, 0, 0, 0, 0],
   0x80002000, 64, 0x80000000⟩

/-- The .text section of the parsed C5 container. -/
def c5text : DolSection :=
  ⟨.Text, ".text", 0x80000000, 32, 32, List.replicate 32 0xAA⟩

/-- The .data section of the parsed C5 container. -/
def c5data : DolSection :=
  ⟨.Data, ".data", 0x80001000, 16, 16, List.replicate 16 0xBB⟩

/-- The synthesized .bss section of the parsed C5 container. -/
def c5bss : DolSection :=
  ⟨.Bss, ".bss", 0x80002000, 64, 64, []⟩

/-- The full parse result of the C5 container. -/
def c5dol : Dol :=
  ⟨c5hdr, none, none, [c5text, c5data, c5bss]⟩

/-- The C5 container parses to exactly the expected aggregate. -/
theorem c5_parse_eval : from_bytes c5input = .ok c5dol := by decide

/-- The C5 container's header parses to the expected field values. -/
theorem c5_header_eval : parse_header c5input = some c5hdr := by decide

/-- C4 witness: the theorem applied to the .text section of the parsed C5
container, whose hypotheses all hold by evaluation. -/
theorem c4_witness :
    from_bytes c5input = .ok c5dol ∧ parse_header c5input = some c5hdr ∧
    c5text ∈ c5dol.sections ∧ (c5text.kind = .Text ∨ c5text.kind = .Data) ∧
    ∃ t ∈ declaredTriples c5hdr, t.kind = c5text.kind ∧ t.address = c5text.address ∧
      (match findCopy c5dol.rom_copy_info c5text.address with
       | some e => c5text.size = e.size
       | none => c5text.size = t.size) :=
  ⟨c5_parse_eval, c5_header_eval, by decide, by decide,
   c4_size_correction c5input c5dol c5hdr c5_parse_eval c5_header_eval c5text
     (by decide) (by decide)⟩

/-- C7 witness: the theorem applied to the .data section of the parsed C5
container. -/
theorem c7_witness :
    from_bytes c5input = .ok c5dol ∧ parse_header c5input = some c5hdr ∧
    c5data ∈ c5dol.sections ∧ (c5data.kind = .Text ∨ c5data.kind = .Data) ∧
    ∃ t ∈ declaredTriples c5hdr, t.kind = c5data.kind ∧ t.address = c5data.address ∧
      t.size ≠ 0 ∧ c5data.data.length = t.size :=
  ⟨c5_parse_eval, c5_header_eval, by decide, by decide,
   c7_zero_size_text_data_omitted c5input c5dol c5hdr c5_parse_eval c5_header_eval c5data
     (by decide) (by decide)⟩

/-- C10 witness: the theorem applied to the .text section of the parsed C5
container. -/
theorem c10_witness :
    from_bytes c5input = .ok c5dol ∧ parse_header c5input = some c5hdr ∧
    c5text ∈ c5dol.sections ∧ (c5text.kind = .Text ∨ c5text.kind = .Data) ∧
    ∃ t ∈ declaredTriples c5hdr,
      c5text.kind = t.kind ∧ section_name t.kind t.index = some c5text.name ∧
      c5text.address = t.address ∧ c5text.aligned_size = t.size ∧
      readBytes c5input t.offset t.size = some c5text.data :=
  ⟨c5_parse_eval, c5_header_eval, by decide, by decide,
   c10_correction_touches_only_size c5input c5dol c5hdr c5_parse_eval c5_header_eval c5text
     (by decide) (by decide)⟩

/-- The header of the C6 adversarial container, as parsed. -/
def c6hdr : Header :=
  ⟨[228, 0, 0, 0, 0, 0, 0], List.replicate 11 0,
   [0x80000000, 0, 0, 0, 0, 0, 0], List.replicate 11 0,
   [0x1000, 0, 0, 0, 0, 0, 0], List.replicate 11 0,
   0x80002000, 64, 0x80000000⟩

/-- The declared triple of the C6 container whose size overruns the source. -/
def c6tri : Triple :=
  ⟨.Text, 0, 228, 0x80000000, 0x1000⟩

/-- C6 witness: the empty source is shorter than 228 bytes and fails with an
I/O error, and the adversarial container whose declared text size overruns
the source also fails with an I/O error. -/
theorem c6_witness :
    ([] : Bytes).length < 228 ∧ from_bytes [] = .error .ioError ∧
    parse_header c6input = some c6hdr ∧ c6tri ∈ declaredTriples c6hdr ∧
    c6tri.size ≠ 0 ∧ c6input.length < c6tri.offset + c6tri.size ∧
    from_bytes c6input = .error .ioError :=
  ⟨by decide, (c6_io_failure_aborts []).1 (by decide),
   by decide, by decide, by decide, by decide,
   (c6_io_failure_aborts c6input).2 c6hdr (by decide) c6tri (by decide) (by decide) (by decide)⟩

/-- Skipping j elements first is the same as stepping over the j-dropped
list. -/
theorem step_by_aux_drop {α : Type} (n : Nat) : ∀ (l : List α) (j : Nat),
    step_by_aux n j l = step_by n (l.drop j) := by
  intro l
  induction l with
  | nil => intro j; cases j <;> rfl
  | cons x xs ih =>
    intro j
    cases j with
    | zero => rfl
    | succ j' =>
      rw [List.drop_succ_cons, ← ih j']
      rfl

/-- Unfolding rule for step_by on a cons cell: keep the head, then step over
the list with the next n-1 elements removed. -/
theorem step_by_cons {α : Type} (n : Nat) (x : α) (xs : List α) :
    step_by n (x :: xs) = x :: step_by n (xs.drop (n - 1)) := by
  have h : step_by n (x :: xs) = x :: step_by_aux n (n - 1) xs := rfl
  rw [h, step_by_aux_drop]

/-- step_by commutes with map. -/
theorem step_by_aux_map {α β : Type} (g : α → β) (n : Nat) : ∀ (l : List α) (j : Nat),
    step_by_aux n j (l.map g) = (step_by_aux n j l).map g := by
  intro l
  induction l with
  | nil => intro j; cases j <;> rfl
  | cons x xs ih =>
    intro j
    cases j with
    | zero =>
      rw [List.map_cons,
          show step_by_aux n 0 (g x :: xs.map g) = g x :: step_by_aux n (n - 1) (xs.map g) from rfl,
          ih (n - 1)]
      rfl
    | succ j' =>
      rw [List.map_cons,
          show step_by_aux n (j' + 1) (g x :: xs.map g) = step_by_aux n j' (xs.map g) from rfl,
          ih j']
      rfl

/-- step_by commutes with map. -/
theorem step_by_map {α β : Type} (g : α → β) (n : Nat) (l : List α) :
    step_by n (l.map g) = (step_by n l).map g :=
  step_by_aux_map g n l 0

/-- Dropping from an arithmetic index range shifts its start. -/
theorem drop_range' : ∀ (k j a : Nat), (List.range' a k).drop j = List.range' (a + j) (k - j) := by
  intro k
  induction k with
  | zero =>
    intro j a
    cases j with
    | zero => rfl
    | succ j' =>
      have h0 : (0 : Nat) - (j' + 1) = 0 := by omega
      rw [h0]
      rfl
  | succ k' ih =>
    intro j a
    cases j with
    | zero => rfl
    | succ j' =>
      rw [List.range'_succ, List.drop_succ_cons, ih j' (a + 1)]
      have h1 : a + 1 + j' = a + (j' + 1) := by omega
      have h2 : k' - j' = k' + 1 - (j' + 1) := by omega
      rw [h1, h2]

/-- Stepping by w over a contiguous index range yields the arithmetic
progression of stride w. -/
theorem step_by_range' (w : Nat) (hw : 0 < w) : ∀ (k a : Nat),
    step_by w (List.range' a k) = (List.range ((k + (w - 1)) / w)).map (fun j => a + w * j) := by
  intro k
  induction k using Nat.strong_induction_on with
  | _ k ih =>
    intro a
    cases k with
    | zero =>
      rw [show List.range' a 0 = [] from rfl,
          show step_by w ([] : List Nat) = [] from rfl,
          Nat.div_eq_of_lt (by omega)]
      rfl
    | succ k' =>
      rw [List.range'_succ, step_by_cons, drop_range']
      have h1 : a + 1 + (w - 1) = a + w := by omega
      rw [h1, ih (k' - (w - 1)) (by omega) (a + w)]
      have h2 : k' + 1 + (w - 1) = k' + w := by omega
      rw [h2, Nat.add_div_right _ hw]
      have h3 : (k' - (w - 1) + (w - 1)) / w = k' / w := by
        by_cases hle : w - 1 ≤ k'
        · rw [Nat.sub_add_cancel hle]
        · have h4 : k' - (w - 1) = 0 := by omega
          rw [h4, Nat.div_eq_of_lt (by omega), Nat.div_eq_of_lt (by omega)]
      rw [h3, List.range_succ_eq_map, List.map_cons, List.map_map]
      have hhead : a + w * 0 = a := by omega
      have htail : (fun j => a + w + w * j) = ((fun j => a + w * j) ∘ Nat.succ) := by
        funext j
        show a + w + w * j = a + w * (j + 1)
        rw [Nat.mul_succ]
        omega
      rw [hhead, htail]

/-- When no index satisfies P, dropping while not-P drops everything. -/
theorem dropWhile_of_find?_none {P : Nat → Bool} {l : List Nat}
    (h : l.find? P = none) : l.dropWhile (fun i => !P i) = [] := by
  rw [List.dropWhile_eq_nil_iff]
  intro x hx
  have hnx := List.find?_eq_none.mp h x hx
  simp only [Bool.not_eq_true'] at hnx
  simp [hnx]

/-- Dropping while not-P over a contiguous index range stops exactly at the
first index satisfying P. -/
theorem dropWhile_of_find?_some {P : Nat → Bool} : ∀ {k a i0 : Nat},
    (List.range' a k).find? P = some i0 →
    (List.range' a k).dropWhile (fun i => !P i) = List.range' i0 (a + k - i0) := by
  intro k
  induction k with
  | zero => intro a i0 h; cases h
  | succ k' ih =>
    intro a i0 h
    rw [List.range'_succ] at h ⊢
    by_cases hP : P a
    · rw [List.find?_cons_of_pos _ hP] at h
      injection h with h
      subst h
      rw [List.dropWhile_cons_of_neg (by simp [hP])]
      rw [← List.range'_succ]
      congr 1
      omega
    · rw [List.find?_cons_of_neg _ hP] at h
      rw [List.dropWhile_cons_of_pos (by simp [hP])]
      rw [ih h]
      congr 1
      omega

/-- The byte at a position, zero beyond the end (total helper used by the
specification-side description). -/
def byteAt (d : Bytes) (p : Nat) : Nat :=
  d.getD p 0

/-- The big-endian 32-bit value formed by the four bytes at the position. -/
def be32 (d : Bytes) (p : Nat) : Nat :=
  ((byteAt d p * 256 + byteAt d (p + 1)) * 256 + byteAt d (p + 2)) * 256 + byteAt d (p + 3)

/-- Inside the source the fallible read returns exactly the big-endian
value. -/
theorem read_bu32_eq_be32 {d : Bytes} {p : Nat} (h : p + 4 ≤ d.length) :
    read_bu32 d p = some (be32 d p) := by
  have h0 : p < d.length := by omega
  have h1 : p + 1 < d.length := by omega
  have h2 : p + 2 < d.length := by omega
  have h3 : p + 3 < d.length := by omega
  unfold read_bu32
  rw [List.getElem?_eq_getElem h0, List.getElem?_eq_getElem h1,
      List.getElem?_eq_getElem h2, List.getElem?_eq_getElem h3]
  unfold be32 byteAt
  simp [List.getD_eq_getElem?_getD, List.getElem?_eq_getElem, h0, h1, h2, h3]

/-- Bytes of a window agree with the bytes of the underlying list. -/
theorem byteAt_slice {d : Bytes} {i n k : Nat} (hk : k < n) (hin : i + n ≤ d.length) :
    byteAt ((d.drop i).take n) k = byteAt d (i + k) := by
  unfold byteAt
  rw [List.getD_eq_getElem?_getD, List.getD_eq_getElem?_getD,
      List.getElem?_take_of_lt hk, List.getElem?_drop]

/-- Big-endian values of a window agree with those of the underlying list. -/
theorem be32_slice {d : Bytes} {i n k : Nat} (hk : k + 4 ≤ n) (hin : i + n ≤ d.length) :
    be32 ((d.drop i).take n) k = be32 d (i + k) := by
  unfold be32
  rw [byteAt_slice (by omega) hin, byteAt_slice (by omega) hin,
      byteAt_slice (by omega) hin, byteAt_slice (by omega) hin]
  have e1 : i + (k + 1) = i + k + 1 := by omega
  have e2 : i + (k + 2) = i + k + 2 := by omega
  have e3 : i + (k + 3) = i + k + 3 := by omega
  rw [e1, e2, e3]

/-- The candidate copy record decoded at byte offset i of the window, as the
spec describes it: on-disk address, in-memory address, byte count. -/
def candRom (d : Bytes) (i : Nat) : RomCopyInfo :=
  ⟨be32 d i, be32 d (i + 4), be32 d (i + 8)⟩

/-- The candidate zero-fill record decoded at byte offset i of the window:
in-memory address, byte count. -/
def candBss (d : Bytes) (i : Nat) : BssInitInfo :=
  ⟨be32 d i, be32 d (i + 4)⟩

/-- Decoding a full 12-byte window succeeds and yields the candidate record
at its offset. -/
theorem decodeRom_window {d : Bytes} {i : Nat} (h : i + 12 ≤ d.length) :
    RomCopyInfo.from_bytes ((d.drop i).take 12) = some (candRom d i) := by
  have hw : ((d.drop i).take 12).length = 12 := by
    rw [List.length_take, List.length_drop]
    omega
  unfold RomCopyInfo.from_bytes
  rw [read_bu32_eq_be32 (by omega), read_bu32_eq_be32 (by omega), read_bu32_eq_be32 (by omega)]
  have e0 := @be32_slice d i 12 0 (by omega) h
  rw [Nat.add_zero] at e0
  have e4 := @be32_slice d i 12 4 (by omega) h
  have e8 := @be32_slice d i 12 8 (by omega) h
  rw [e0, e4, e8]
  rfl

/-- Decoding a full 8-byte window succeeds and yields the candidate record at
its offset. -/
theorem decodeBss_window {d : Bytes} {i : Nat} (h : i + 8 ≤ d.length) :
    BssInitInfo.from_bytes ((d.drop i).take 8) = some (candBss d i) := by
  have hw : ((d.drop i).take 8).length = 8 := by
    rw [List.length_take, List.length_drop]
    omega
  unfold BssInitInfo.from_bytes
  rw [read_bu32_eq_be32 (by omega), read_bu32_eq_be32 (by omega)]
  have e0 := @be32_slice d i 8 0 (by omega) h
  rw [Nat.add_zero] at e0
  have e4 := @be32_slice d i 8 4 (by omega) h
  rw [e0, e4]
  rfl

/-- A filterMap whose function always succeeds is a map. -/
theorem filterMap_eq_map_of_forall {α β : Type} {g : α → Option β} {f : α → β} :
    ∀ {l : List α}, (∀ x ∈ l, g x = some (f x)) → l.filterMap g = l.map f := by
  intro l
  induction l with
  | nil => intro _; rfl
  | cons x xs ih =>
    intro h
    rw [List.filterMap_cons, h x (List.mem_cons_self x xs)]
    rw [List.map_cons, ih (fun y hy => h y (List.mem_cons_of_mem _ hy))]

/-- The decoded candidates of the 12-byte windows are exactly the candidate
records at every byte offset. -/
theorem windows_filterMap_rom (d : Bytes) :
    (windows 12 d).filterMap RomCopyInfo.from_bytes =
      (List.range (d.length + 1 - 12)).map (fun i => candRom d i) := by
  unfold windows
  rw [List.filterMap_map]
  apply filterMap_eq_map_of_forall
  intro i hi
  have hlt := List.mem_range.mp hi
  show RomCopyInfo.from_bytes ((d.drop i).take 12) = some (candRom d i)
  exact decodeRom_window (by omega)

/-- The decoded candidates of the 8-byte windows are exactly the candidate
records at every byte offset. -/
theorem windows_filterMap_bss (d : Bytes) :
    (windows 8 d).filterMap BssInitInfo.from_bytes =
      (List.range (d.length + 1 - 8)).map (fun i => candBss d i) := by
  unfold windows
  rw [List.filterMap_map]
  apply filterMap_eq_map_of_forall
  intro i hi
  have hlt := List.mem_range.mp hi
  show BssInitInfo.from_bytes ((d.drop i).take 8) = some (candBss d i)
  exact decodeBss_window (by omega)

/-- The source's skip condition is the negation of the spec's anchor
condition. -/
theorem bne_or_eq_not_and (a b c : Nat) :
    ((a != c) || (b != c)) = !((a == c) && (b == c)) := by
  rw [Bool.not_and]
  rfl

/-- Phase 1 of the copy-table recovery, in the spec's words: decode a
candidate at every byte offset of the window and take the first whose
on-disk and in-memory addresses both equal the load address. -/
def specCopyAnchor (d : Bytes) (address : Nat) : Option Nat :=
  (List.range (d.length + 1 - 12)).find?
    (fun i => (candRom d i).rom_address == address && (candRom d i).ram_address == address)

/-- Phase 2 of the copy-table recovery, in the spec's words: from the anchor,
visit the record-aligned offsets anchor, anchor+12, ... up to the end of the
window, keeping records until the first whose on-disk address is zero. -/
def specCopyRecords (d : Bytes) (i0 : Nat) : List RomCopyInfo :=
  ((List.range ((d.length - i0) / 12)).map (fun j => candRom d (i0 + 12 * j))).takeWhile
    (fun r => r.rom_address != 0)

/-- The two-phase copy-table recovery over at most the last 512 bytes of the
init section; a missing anchor yields the empty table (which is what the
source produces; see C1 for the divergence from the documented absence). -/
def specCopyTable (data : Bytes) (address : Nat) : List RomCopyInfo :=
  match specCopyAnchor (take_last_n data 0x200) address with
  | none => []
  | some i0 => specCopyRecords (take_last_n data 0x200) i0

/-- Phase 1 of the zero-fill-table recovery: the first candidate whose
in-memory address equals the header's zero-fill address. -/
def specZeroAnchor (d : Bytes) (address : Nat) : Option Nat :=
  (List.range (d.length + 1 - 8)).find? (fun i => (candBss d i).ram_address == address)

/-- Phase 2 of the zero-fill-table recovery: stride by 8 from the anchor,
keeping records until the first whose in-memory address is zero. -/
def specZeroRecords (d : Bytes) (i0 : Nat) : List BssInitInfo :=
  ((List.range ((d.length - i0) / 8)).map (fun j => candBss d (i0 + 8 * j))).takeWhile
    (fun r => r.ram_address != 0)

/-- The two-phase zero-fill-table recovery over at most the last 512 bytes of
the init section. -/
def specZeroTable (data : Bytes) (address : Nat) : List BssInitInfo :=
  match specZeroAnchor (take_last_n data 0x200) address with
  | none => []
  | some i0 => specZeroRecords (take_last_n data 0x200) i0

/-- The iterator chain of rom_copy_info_search computes exactly the spec's
two-phase anchor-then-stride recovery. -/
theorem rom_search_eq_spec (data : Bytes) (address : Nat) :
    rom_copy_info_search data address = some (specCopyTable data address) := by
  unfold rom_copy_info_search specCopyTable specCopyAnchor specCopyRecords
  apply congrArg some
  rw [windows_filterMap_rom, List.dropWhile_map]
  have hpred : ((fun x : RomCopyInfo => x.rom_address != address || x.ram_address != address) ∘
      fun i => candRom (take_last_n data 0x200) i) =
      (fun i => !((candRom (take_last_n data 0x200) i).rom_address == address &&
                  (candRom (take_last_n data 0x200) i).ram_address == address)) := by
    funext i
    exact bne_or_eq_not_and _ _ _
  rw [hpred, step_by_map, List.takeWhile_map, List.range_eq_range']
  cases hf : (List.range' 0 ((take_last_n data 0x200).length + 1 - 12)).find?
      (fun i => (candRom (take_last_n data 0x200) i).rom_address == address &&
                (candRom (take_last_n data 0x200) i).ram_address == address) with
  | none =>
    rw [dropWhile_of_find?_none hf]
    rfl
  | some i0 =>
    dsimp only
    have hi0 : i0 < 0 + ((take_last_n data 0x200).length + 1 - 12) :=
      (List.mem_range'_1.mp (List.mem_of_find?_eq_some hf)).2
    rw [dropWhile_of_find?_some hf, step_by_range' 12 (by omega)]
    have hc : 0 + ((take_last_n data 0x200).length + 1 - 12) - i0 + (12 - 1) =
        (take_last_n data 0x200).length - i0 := by omega
    rw [hc, List.takeWhile_map, List.takeWhile_map, List.map_map]
    rfl

/-- The iterator chain of bss_init_info_search computes exactly the spec's
two-phase anchor-then-stride recovery. -/
theorem bss_search_eq_spec (data : Bytes) (address : Nat) :
    bss_init_info_search data address = some (specZeroTable data address) := by
  unfold bss_init_info_search specZeroTable specZeroAnchor specZeroRecords
  apply congrArg some
  rw [windows_filterMap_bss, List.dropWhile_map]
  have hpred : ((fun x : BssInitInfo => x.ram_address != address) ∘
      fun i => candBss (take_last_n data 0x200) i) =
      (fun i => !((candBss (take_last_n data 0x200) i).ram_address == address)) := by
    funext i
    rfl
  rw [hpred, step_by_map, List.takeWhile_map, List.range_eq_range']
  cases hf : (List.range' 0 ((take_last_n data 0x200).length + 1 - 8)).find?
      (fun i => (candBss (take_last_n data 0x200) i).ram_address == address) with
  | none =>
    rw [dropWhile_of_find?_none hf]
    rfl
  | some i0 =>
    dsimp only
    have hi0 : i0 < 0 + ((take_last_n data 0x200).length + 1 - 8) :=
      (List.mem_range'_1.mp (List.mem_of_find?_eq_some hf)).2
    rw [dropWhile_of_find?_some hf, step_by_range' 8 (by omega)]
    have hc : 0 + ((take_last_n data 0x200).length + 1 - 8) - i0 + (8 - 1) =
        (take_last_n data 0x200).length - i0 := by omega
    rw [hc, List.takeWhile_map, List.takeWhile_map, List.map_map]
    rfl

/-- C3: copy-table recovery operates on at most the last 512 bytes, decodes a
12-byte candidate at every byte offset, anchors at the first candidate whose
on-disk and in-memory addresses both equal the init load address, then
strides by exactly 12 bytes collecting records (anchor included) while the
on-disk address is nonzero, stopping at the first zero on-disk address or
the end of the buffer; zero-fill recovery is the identical two-phase
algorithm with 8-byte records, anchor condition in-memory address equal to
the header's zero-fill address, and sentinel in-memory address zero. -/
theorem c3_two_phase_recovery (data : Bytes) (address : Nat) :
    rom_copy_info_search data address = some (specCopyTable data address) ∧
    bss_init_info_search data address = some (specZeroTable data address) :=
  ⟨rom_search_eq_spec data address, bss_search_eq_spec data address⟩

example :
    rom_copy_info_search
      (([0x80000000, 0x80000000, 0x20, 0x80000060, 0x80000060, 0x10, 0, 0, 0].map u32be).flatten)
      0x80000000 =
    some [⟨0x80000000, 0x80000000, 0x20⟩, ⟨0x80000060, 0x80000060, 0x10⟩] := by decide

example : specZeroTable c2init 0x80002000 =
    [⟨0x80002000, 32⟩, ⟨0x80002100, 32⟩, ⟨0x80002200, 32⟩, ⟨0x80002300, 32⟩] := by decide

/-- C9: when the copy-table anchor is found and the record at the anchor (the
first record of the strided walk) already has on-disk address zero, the
recovered copy-table is the empty list, a valid outcome rather than an
error. -/
theorem c9_sentinel_at_position_zero (data : Bytes) (address : Nat) (i0 : Nat)
    (hanchor : specCopyAnchor (take_last_n data 0x200) address = some i0)
    (hzero : (candRom (take_last_n data 0x200) i0).rom_address = 0) :
    rom_copy_info_search data address = some [] := by
  rw [rom_search_eq_spec data address]
  apply congrArg some
  unfold specCopyTable
  rw [hanchor]
  dsimp only
  unfold specCopyRecords
  have hi0 : i0 < (take_last_n data 0x200).length + 1 - 12 :=
    List.mem_range.mp (List.mem_of_find?_eq_some hanchor)
  obtain ⟨K, hK⟩ : ∃ K, ((take_last_n data 0x200).length - i0) / 12 = K + 1 := by
    have h1 : 1 ≤ ((take_last_n data 0x200).length - i0) / 12 := by
      rw [Nat.le_div_iff_mul_le (by omega)]
      omega
    exact ⟨((take_last_n data 0x200).length - i0) / 12 - 1, by omega⟩
  have hneg : ¬((candRom (take_last_n data 0x200) (i0 + 12 * 0)).rom_address != 0) := by
    have h12 : i0 + 12 * 0 = i0 := by omega
    rw [h12, hzero]
    simp
  rw [hK, List.range_succ_eq_map, List.map_cons]
  exact List.takeWhile_cons_of_neg hneg

/-- C9 witness: on a 12-byte all-zero init section with load address zero,
the anchor is found at offset zero, its record's on-disk address is zero, and
the recovered copy-table is empty. -/
theorem c9_witness :
    specCopyAnchor (take_last_n (List.replicate 12 0) 0x200) 0 = some 0 ∧
    (candRom (take_last_n (List.replicate 12 0) 0x200) 0).rom_address = 0 ∧
    rom_copy_info_search (List.replicate 12 0) 0 = some [] :=
  ⟨by decide, by decide,
   c9_sentinel_at_position_zero (List.replicate 12 0) 0 0 (by decide) (by decide)⟩
